import Mathlib

/-!
Verification of the electoral-roll extraction and reconciliation core:
a shallow embedding of the glyph decoder, line segmenter, age/EPIC parsers,
EPIC formatters, match-score reconciliation and the voters-table insert,
with theorems settling the specified properties.

Strings are modelled as `List Char`; Python dictionaries keyed by field name
as functions `String → String` defaulting to the empty string; floating-point
scores as exact rationals.
-/

set_option maxRecDepth 8000

namespace WB

/-! ## Basic Python-string helpers -/

def pyToUpper (c : Char) : Char := c.toUpper

def pyToLower (c : Char) : Char := c.toLower

def isPySpace (c : Char) : Bool :=
  c = ' ' ∨ c = '\t' ∨ c = '\n' ∨ c = '\r' ∨ c = '\x0b' ∨ c = '\x0c'

def isAsciiDigit (c : Char) : Bool := '0' ≤ c ∧ c ≤ '9'

def digitVal (c : Char) : Nat := c.toNat - 48

def natOfDigits (l : List Char) : Nat := l.foldl (fun n c => n * 10 + digitVal c) 0

def isDigits (l : List Char) : Bool := l ≠ [] ∧ l.all isAsciiDigit

def digitsOfNat (n : Nat) : List Char := Nat.toDigits 10 n

/-- Python `pat in s` substring containment, for a literal pattern. -/
def hasSub (pat : String) (l : List Char) : Bool := decide (pat.toList <:+: l)

/-- Python `s.split()`: split on whitespace runs, dropping empty pieces. -/
def pySplitWs (l : List Char) : List (List Char) :=
  (l.splitOnP isPySpace).filter (fun w => w ≠ [])

/-- Python `' '.join(ws)`. -/
def pyJoinSpace (ws : List (List Char)) : List Char := (ws.intersperse [' ']).flatten

/-- Python `s.strip()`. -/
def pyStrip (l : List Char) : List Char :=
  ((l.dropWhile isPySpace).reverse.dropWhile isPySpace).reverse

/-- Python `s.replace(tgt, rep)` (non-overlapping, left to right); fuelled scan. -/
def pyReplaceLoop (tgt rep : List Char) : Nat → List Char → List Char
  | 0, s => s
  | fuel + 1, s =>
    match s with
    | [] => []
    | c :: rest =>
      if tgt ≠ [] ∧ s.take tgt.length = tgt then
        rep ++ pyReplaceLoop tgt rep fuel (s.drop tgt.length)
      else
        c :: pyReplaceLoop tgt rep fuel rest

def pyReplaceAll (s tgt rep : List Char) : List Char := pyReplaceLoop tgt rep s.length s

/-! ## Glyph decoder (`decode_text` in `extract_voters_universal.py`) -/

/-- The `char_map` table: shifted uppercase letters, punctuation to uppercase,
backslash; every unmapped character passes through unchanged. -/
def charShiftMap (c : Char) : Char :=
  match c with
  | 'D' => 'a' | 'E' => 'b' | 'F' => 'c' | 'G' => 'd' | 'H' => 'e' | 'I' => 'f'
  | 'J' => 'g' | 'K' => 'h' | 'L' => 'i' | 'M' => 'j' | 'N' => 'k' | 'O' => 'l'
  | 'P' => 'm' | 'Q' => 'n' | 'R' => 'o' | 'S' => 'p' | 'T' => 'q' | 'U' => 'r'
  | 'V' => 's' | 'W' => 't' | 'X' => 'u' | 'Y' => 'v' | 'Z' => 'w'
  | '$' => 'A' | '%' => 'B' | '&' => 'C' | '\'' => 'D' | '(' => 'E' | ')' => 'F'
  | '*' => 'G' | '+' => 'H' | ',' => 'I' | '-' => 'J' | '.' => 'K' | '/' => 'L'
  | '0' => 'M' | '1' => 'N' | '2' => 'O' | '3' => 'P' | '4' => 'Q' | '5' => 'R'
  | '6' => 'S' | '7' => 'T' | '8' => 'U' | '9' => 'V' | ':' => 'W'
  | '\\' => 'y'
  | other => other

/-- The mapping applied to the numeric content of one `(cid:N)`-style group,
in the branch order of the source. -/
def cidDecode (num : Nat) : List Char :=
  if num = 18 then ['/']
  else if num = 17 then ['.']
  else if 19 ≤ num ∧ num ≤ 28 then [Char.ofNat (48 + (num - 19))]
  else if num = 15 then [' ']
  else if num = 16 then ['/']
  else if num = 29 then [':']
  else []

def cidTag : List Char := ['(', 'c', 'i', 'd', ':']

def cidTagW : List Char := ['(', 'c', 'i', 'd', 'W']

/-- The left-to-right scan of `decode_text`: an indexed-code group is consumed
up to its closing parenthesis, otherwise one character is mapped. -/
def decodeLoop : Nat → List Char → List Char
  | 0, _ => []
  | _, [] => []
  | fuel + 1, c :: rest =>
    if ((c :: rest).take 5 = cidTag ∨ (c :: rest).take 5 = cidTagW) ∧ ')' ∈ c :: rest then
      let before := (c :: rest).takeWhile (fun x => x ≠ ')')
      let after := ((c :: rest).dropWhile (fun x => x ≠ ')')).drop 1
      let content := if (c :: rest).take 5 = cidTag then before.drop 5 else before.drop 6
      (if isDigits content then cidDecode (natOfDigits content) else []) ++ decodeLoop fuel after
    else
      charShiftMap c :: decodeLoop fuel rest

/-- `decode_text`: scan, then collapse whitespace runs to single spaces. -/
def decodeText (l : List Char) : List Char :=
  pyJoinSpace (pySplitWs (decodeLoop l.length l))

/-- C1. Every well-formed indexed-code group `(cid:N)` decodes through the fixed
table: N in [19,28] to the digit N-19, 17 to a dot, 18 and 16 to a slash,
15 to a space, 29 to a colon, and every other N to the empty string (dropped,
not an error); in particular the four quoted examples of the spec hold of the
full decoder. -/
theorem c1_cid_group_map :
    (∀ n : Nat, cidDecode n =
      (if 19 ≤ n ∧ n ≤ 28 then [Char.ofNat (48 + (n - 19))]
       else if n = 17 then ['.']
       else if n = 18 ∨ n = 16 then ['/']
       else if n = 15 then [' ']
       else if n = 29 then [':']
       else []))
    ∧ decodeText ("(cid:19)".toList) = "0".toList
    ∧ decodeText ("(cid:28)".toList) = "9".toList
    ∧ decodeText ("(cid:17)".toList) = ".".toList
    ∧ decodeText ("(cid:18)".toList) = "/".toList := by
  refine ⟨fun n => ?_, by decide, by decide, by decide, by decide⟩
  unfold cidDecode
  split_ifs <;> first | rfl | omega

/-! ## Indexed-code reference scanning (the regex `\(cid[W]?:\d+\)`) -/

/-- Match the pattern `\(cid[W]?:\d+\)` at the head of the list; on success
return the numeric content and the remainder after the closing parenthesis. -/
def cidRefMatch (l : List Char) : Option (Nat × List Char) :=
  if l.take 4 = ['(', 'c', 'i', 'd'] then
    let l1 := l.drop 4
    let l2 := if l1.take 1 = ['W'] then l1.drop 1 else l1
    match l2 with
    | ':' :: r =>
      let ds := r.takeWhile isAsciiDigit
      if ds ≠ [] ∧ (r.drop ds.length).take 1 = [')'] then
        some (natOfDigits ds, r.drop (ds.length + 1))
      else none
    | _ => none
  else none

/-- `re.findall(r'\(cid[W]?:(\d+)\)', part)`: the numeric contents of the
left-to-right non-overlapping matches. -/
def cidNumbersLoop : Nat → List Char → List Nat
  | 0, _ => []
  | _, [] => []
  | fuel + 1, c :: rest =>
    match cidRefMatch (c :: rest) with
    | some (n, r) => n :: cidNumbersLoop fuel r
    | none => cidNumbersLoop fuel rest

def cidNumbers (l : List Char) : List Nat := cidNumbersLoop l.length l

/-- `re.sub(r'\(cid[W]?:\d+\)', '', part)`: delete every such match. -/
def stripCidLoop : Nat → List Char → List Char
  | 0, _ => []
  | _, [] => []
  | fuel + 1, c :: rest =>
    match cidRefMatch (c :: rest) with
    | some (_, r) => stripCidLoop fuel r
    | none => c :: stripCidLoop fuel rest

def stripCidGroups (l : List Char) : List Char := stripCidLoop l.length l

/-! ## Age extraction (`parse_age_from_parts`) -/

/-- The per-digit step of the pair branch: codes in [19,28] become 0-9, any
other code keeps its raw value. -/
def cidAgeDigit (n : Nat) : Nat := if 19 ≤ n ∧ n ≤ 28 then n - 19 else n

/-- The scan of `parse_age_from_parts` over the tokens from the start index:
first a pair of indexed-code references, then the numeric remainder of the
token with indexed-code groups stripped; a hit must lie in [18,120]. -/
def parseAgeGo : List (List Char) → List Char
  | [] => []
  | part :: rest =>
    let pairHit :=
      match cidNumbers part with
      | n1 :: n2 :: _ =>
        let age := cidAgeDigit n1 * 10 + cidAgeDigit n2
        if 18 ≤ age ∧ age ≤ 120 then some age else none
      | _ => none
    match pairHit with
    | some age => digitsOfNat age
    | none =>
      let cleaned := stripCidGroups part
      if isDigits cleaned then
        if 18 ≤ natOfDigits cleaned ∧ natOfDigits cleaned ≤ 120 then
          digitsOfNat (natOfDigits cleaned)
        else parseAgeGo rest
      else parseAgeGo rest

def parseAgeFromParts (parts : List (List Char)) (start : Nat) : List Char :=
  parseAgeGo (parts.drop start)

/-- The candidate stream of one token, in the order the code tries them: the
combined value of the first two indexed-code references when at least two are
present, then the stripped token when purely numeric. -/
def ageCandidates (part : List Char) : List Nat :=
  (match cidNumbers part with
   | n1 :: n2 :: _ => [cidAgeDigit n1 * 10 + cidAgeDigit n2]
   | _ => []) ++
  (let cleaned := stripCidGroups part
   if isDigits cleaned then [natOfDigits cleaned] else [])

/-- Specification shape of age extraction: the first candidate in [18,120]
from the concatenated per-token candidate streams, rendered in decimal;
out-of-range candidates are discarded, never clamped. -/
def ageSpec (parts : List (List Char)) (start : Nat) : List Char :=
  match (((parts.drop start).flatMap ageCandidates).filter
      (fun n => decide (18 ≤ n ∧ n ≤ 120))).head? with
  | some n => digitsOfNat n
  | none => []

/-! ## EPIC extraction (`parse_epic_from_parts`) -/

def parseEpicGo : List (List Char) → List Char
  | [] => []
  | part :: rest =>
    if hasSub "WB" part ∨ hasSub ":%(cid:18)" part ∨ hasSub "WB(cid:18)" part ∨
        hasSub "WB(cidW" part then
      pyStrip (decodeText part)
    else if hasSub ".1" part ∨ hasSub ".N" part ∨ hasSub "DKN" part then
      pyStrip (decodeText part)
    else parseEpicGo rest

def parseEpicFromParts (parts : List (List Char)) (start : Nat) : List Char :=
  parseEpicGo (parts.drop start)

/-! ## Line segmentation (`extract_voter_data_from_pdf`, per-line logic) -/

inductive Rel
  | father
  | husband
  | mother
  | wife
deriving DecidableEq, Repr

def relName : Rel → List Char
  | .father => "Father".toList
  | .husband => "Husband".toList
  | .mother => "Mother".toList
  | .wife => "Wife".toList

/-- One token against the relationship checks of the scan at lines 230-247,
in their order: the obfuscated marker in the raw token, or the lowercase
marker in the decoded-lowercased token. -/
def tokenRelMatch (t : List Char) : Option Rel :=
  let d := (decodeText t).map pyToLower
  if hasSub ")DWKHU" t ∨ hasSub "father" d then some .father
  else if hasSub "+XVEDQG" t ∨ hasSub "husband" d then some .husband
  else if hasSub "0RWKHU" t ∨ hasSub "mother" d then some .mother
  else if hasSub ":LIH" t ∨ hasSub "wife" d then some .wife
  else none

def relSearchGo : Nat → List (List Char) → Option (Nat × Rel)
  | _, [] => none
  | j, t :: ts =>
    match tokenRelMatch t with
    | some k => some (j, k)
    | none => relSearchGo (j + 1) ts

/-- First token (with its index) passing the relationship checks. -/
def relSearch (parts : List (List Char)) : Option (Nat × Rel) :=
  relSearchGo 0 parts

/-- The token-matching rule as the claim words it: the token contains one of
the four literal markers, in raw or decoded-lowercased form. -/
def claimTokenMatch (t : List Char) : Bool :=
  ["father", "husband", "mother", "wife"].any (fun m =>
    hasSub m t || hasSub m ((decodeText t).map pyToLower))

def relStartSearch : Nat → List (List Char) → Option Nat
  | _, [] => none
  | j, t :: ts =>
    if hasSub ")DWKHU" t ∨ hasSub "+XVEDQG" t ∨ hasSub "0RWKHU" t ∨
        hasSub "Father" t ∨ hasSub "Husband" t ∨ hasSub "Mother" t then some j
    else relStartSearch (j + 1) ts

/-- Lines 214-218: first token from index 2 containing one of the six
raw voter-name boundary markers. -/
def relStartIdx (parts : List (List Char)) : Option Nat :=
  relStartSearch 2 (parts.drop 2)

def sexTokSet (t : List Char) : Bool :=
  t = ['0'] ∨ t = [')'] ∨ t = ['M'] ∨ t = ['F']

def sexIdxGo : Nat → Nat → List (List Char) → Option Nat
  | _, _, [] => none
  | j, lb, t :: ts => if sexTokSet t ∧ j > lb then some j else sexIdxGo (j + 1) lb ts

/-- Lines 254-258: first sex-marker token strictly after `relIdx + 1`. -/
def sexIdxSearch (parts : List (List Char)) (relIdx : Nat) : Option Nat :=
  sexIdxGo (relIdx + 1) (relIdx + 1) (parts.drop (relIdx + 1))

/-- Lines 267-280: the sex scan over all tokens, remembering the previous
token for the positional heuristic; the empty string when nothing fires. -/
def prevLenGt2 : Option (List Char) → Bool
  | some pv => pv.length > 2
  | none => false

def sexScanGo : Option (List Char) → List (List Char) → List Char
  | _, [] => []
  | prev, t :: ts =>
    if t = ['0'] ∧ prevLenGt2 prev then ['M']
    else if t = [')'] ∧ prevLenGt2 prev then ['F']
    else if t = ['M'] then ['M']
    else if t = ['F'] then ['F']
    else sexScanGo (some t) ts

def sexScan (parts : List (List Char)) : List Char := sexScanGo none parts

/-- Lines 187-188: skip obfuscated header lines. -/
def headerSkip (line : List Char) : Bool :=
  hasSub "OHFWRU" line ∨ hasSub "HODWLRQ" line

/-- Lines 191-193: section-header lines. -/
def sectionCheck (line : List Char) : Bool :=
  hasSub "6HFWLRQ" line ∨ hasSub "Section" line ∨
  hasSub "section" ((decodeText line).map pyToLower)

/-- Lines 196-198: the filter admitting a line as a candidate voter row. -/
def voterLineCheck (line : List Char) : Bool :=
  hasSub ")DWKHU" line ∨ hasSub "+XVEDQG" line ∨ hasSub "0RWKHU" line ∨
  hasSub "Father" line ∨ hasSub "Husband" line ∨ hasSub "Mother" line ∨
  hasSub ")father" ((decodeText line).map pyToLower) ∨
  hasSub "husband" ((decodeText line).map pyToLower)

structure LineVoter where
  slNo : List Char
  houseNo : List Char
  voterName : List Char
  voterNameEncoded : List Char
  relationship : List Char
  relationName : List Char
  relationNameEncoded : List Char
  sex : List Char
  age : List Char
  epicNo : List Char
deriving DecidableEq, Repr

/-- Python `parts[a:b]`. -/
def sliceParts (parts : List (List Char)) (a b : Nat) : List (List Char) :=
  (parts.drop a).take (b - a)

/-- Lines 205-309 after the token-count check: field carving and the final
acceptance gate on a non-empty decoded name and a resolved relationship. -/
def assembleVoter (parts : List (List Char)) : Option LineVoter :=
  let p0 := parts.getD 0 []
  let p1 := parts.getD 1 []
  let sl0 := pyReplaceAll (pyReplaceAll (pyReplaceAll p0 "(cid:".toList [])
    "(cidW:".toList []) [')'] []
  let slNo := if '(' ∈ sl0 then stripCidGroups (p0 ++ p1) else sl0
  let vEnc :=
    match relStartIdx parts with
    | some k => if k > 2 then pyJoinSpace (sliceParts parts 2 k) else parts.getD 2 []
    | none => parts.getD 2 []
  let vName := decodeText vEnc
  let rel := relSearch parts
  let relationship := match rel with | some (_, k) => relName k | none => []
  let rnEnc :=
    match rel with
    | some (j, _) =>
      if j + 1 < parts.length then
        match sexIdxSearch parts j with
        | some si => pyJoinSpace (sliceParts parts (j + 1) si)
        | none => parts.getD (j + 1) []
      else []
    | none => []
  let rName := match rel with
    | some (j, _) => if j + 1 < parts.length then decodeText rnEnc else []
    | none => []
  let startIdx := match rel with | some (j, _) => j + 2 | none => 3
  if vName ≠ [] ∧ relationship ≠ [] then
    some
      { slNo := slNo
        houseNo := p1
        voterName := vName
        voterNameEncoded := vEnc
        relationship := relationship
        relationName := rName
        relationNameEncoded := rnEnc
        sex := sexScan parts
        age := parseAgeFromParts parts startIdx
        epicNo := parseEpicFromParts parts startIdx }
  else none

/-- The treatment of one text line inside `extract_voter_data_from_pdf`:
header lines and section headers yield no voter, candidate rows with fewer
than five tokens are dropped, otherwise the fields are assembled. -/
def lineVoter (line : List Char) : Option LineVoter :=
  if headerSkip line then none
  else if sectionCheck line then none
  else if voterLineCheck line then
    if (pySplitWs line).length < 5 then none else assembleVoter (pySplitWs line)
  else none

/-! ## Helper lemmas about the scans -/

theorem relSearchGo_eq_none (ts : List (List Char)) :
    ∀ j, relSearchGo j ts = none ↔ ∀ t ∈ ts, tokenRelMatch t = none := by
  induction ts with
  | nil => intro j; simp [relSearchGo]
  | cons t ts ih =>
    intro j
    cases h : tokenRelMatch t with
    | some k => simp [relSearchGo, h]
    | none =>
      simp only [relSearchGo, h, List.mem_cons]
      rw [ih (j + 1)]
      constructor
      · rintro hall t' (rfl | ht') <;> [exact h; exact hall t' ht']
      · intro hall t' ht'; exact hall t' (Or.inr ht')

theorem relSearchGo_eq_some (ts : List (List Char)) :
    ∀ j i k, relSearchGo j ts = some (i, k) →
      j ≤ i ∧ ∃ t, ts[i - j]? = some t ∧ tokenRelMatch t = some k ∧
        ∀ m t', m < i - j → ts[m]? = some t' → tokenRelMatch t' = none := by
  induction ts with
  | nil => intro j i k h; simp [relSearchGo] at h
  | cons t ts ih =>
    intro j i k h
    cases ht : tokenRelMatch t with
    | some k' =>
      rw [relSearchGo, ht] at h
      obtain ⟨rfl, rfl⟩ : j = i ∧ k' = k := by
        cases h; exact ⟨rfl, rfl⟩
      refine ⟨le_refl j, t, ?_, ht, ?_⟩
      · simp
      · intro m t' hm; omega
    | none =>
      rw [relSearchGo, ht] at h
      obtain ⟨hji, t', hget, hmatch, hbefore⟩ := ih (j + 1) i k h
      refine ⟨by omega, t', ?_, hmatch, ?_⟩
      · have : i - j = (i - (j + 1)) + 1 := by omega
        rw [this]; simpa using hget
      · intro m t'' hm hget''
        match m, hget'' with
        | 0, hget'' =>
          simp at hget''; subst hget''; exact ht
        | m + 1, hget'' =>
          exact hbefore m t'' (by omega) (by simpa using hget'')

theorem assembleVoter_none_of_relSearch_none (parts : List (List Char))
    (h : relSearch parts = none) : assembleVoter parts = none := by
  simp [assembleVoter, h]

theorem assembleVoter_sex (parts : List (List Char)) (r : LineVoter)
    (h : assembleVoter parts = some r) : r.sex = sexScan parts := by
  simp only [assembleVoter] at h
  split at h
  · cases h; rfl
  · exact Option.noConfusion h

theorem sexScanGo_cases (ts : List (List Char)) :
    ∀ prev, sexScanGo prev ts = ['M'] ∨ sexScanGo prev ts = ['F'] ∨
      sexScanGo prev ts = [] := by
  induction ts with
  | nil => intro prev; simp [sexScanGo]
  | cons t ts ih =>
    intro prev
    rw [sexScanGo]
    split_ifs <;> simp [ih]

theorem lineVoter_none_cases (line : List Char)
    (h : voterLineCheck line = false ∨ relSearch (pySplitWs line) = none) :
    lineVoter line = none := by
  rw [lineVoter]
  split_ifs with h1 h2 h3 h4
  · rfl
  · rfl
  · rfl
  · rcases h with h | h
    · rw [h3] at h; exact Bool.noConfusion h
    · exact assembleVoter_none_of_relSearch_none _ h
  · rfl

/-! ## C2: the quoted end-to-end line -/

def c2Line : List Char :=
  "12 5/1 RAM KUMAR DAS Father SHYAM DAS M (cid:24)(cid:21) WB1234567890123".toList

/-- C2 counterexample: on the quoted token line the pipeline emits no voter
record at all, so it does not produce the record the claim demands. -/
theorem c2_pipeline_counterexample :
    ¬ ∃ r : LineVoter, lineVoter c2Line = some r ∧
      r.relationship = "Father".toList ∧ r.voterName = "RAM KUMAR DAS".toList ∧
      r.relationName = "SHYAM DAS".toList ∧ r.sex = ['M'] ∧
      r.age = "52".toList ∧ r.epicNo = "WB/12/345/67890123".toList := by
  have h : lineVoter c2Line = none := by decide
  rintro ⟨r, hr, -⟩
  rw [h] at hr
  exact Option.noConfusion hr

/-- C2 amended: the quoted line passes the raw-marker line filter but the
relationship scan resolves nothing — `decode` of the plain token `Father` is
`cather`, which contains no marker — so the line is dropped and the pipeline
produces no voter record. -/
theorem c2_pipeline_amended :
    lineVoter c2Line = none ∧
    voterLineCheck c2Line = true ∧
    relSearch (pySplitWs c2Line) = none ∧
    decodeText ("Father".toList) = "cather".toList ∧
    tokenRelMatch ("Father".toList) = none := by
  refine ⟨by decide, by decide, by decide, by decide, by decide⟩

/-! ## C4: relationship-anchor discovery -/

def c4CidLine : List Char := "1 2 DEL (cid:xx)DWKHU UDP".toList

def c4WifeLine : List Char := "1 2 DEL :LIH UDP".toList

def c4FatherLine : List Char := "1 2 DEL )DWKHU UDP".toList

/-- C4 counterexample: a line none of whose tokens contains any of the four
literal markers in raw or decoded-lowercased form still yields a Father
record (the scan also fires on the bare encoded marker inside an unknown
indexed-code token), and the four markers are not treated alike: the
wife-marker line is skipped by the line filter while the same line with the
father marker yields a record, although the scan itself resolves the wife
token. -/
theorem c4_anchor_counterexample :
    ((pySplitWs c4CidLine).all (fun t => !claimTokenMatch t) = true ∧
      (lineVoter c4CidLine).map LineVoter.relationship = some ("Father".toList)) ∧
    (tokenRelMatch (":LIH".toList) = some Rel.wife ∧
      lineVoter c4WifeLine = none ∧
      (lineVoter c4FatherLine).isSome = true) := by
  exact ⟨⟨by decide, by decide⟩, by decide, by decide, by decide⟩

/-- C4 amended: only lines passing the filter of lines 196-198 — which checks
the father, husband and mother markers in encoded or plain-capitalized raw
form and the decoded line for `husband`, but never a wife marker — reach the
anchor scan; the scan takes the first token containing the encoded marker in
raw form or the lowercase marker in decoded-lowercased form, and a line
failing the filter, or whose tokens all fail the scan, silently produces no
voter record. -/
theorem c4_anchor_amended :
    (∀ line, voterLineCheck line = false → lineVoter line = none) ∧
    (∀ line, relSearch (pySplitWs line) = none → lineVoter line = none) ∧
    (∀ parts, relSearch parts = none ↔ ∀ t ∈ parts, tokenRelMatch t = none) ∧
    (∀ parts i k, relSearch parts = some (i, k) →
      ∃ t, parts[i]? = some t ∧ tokenRelMatch t = some k ∧
        ∀ m t', m < i → parts[m]? = some t' → tokenRelMatch t' = none) := by
  refine ⟨fun line h => lineVoter_none_cases line (Or.inl h),
    fun line h => lineVoter_none_cases line (Or.inr h),
    fun parts => relSearchGo_eq_none parts 0, fun parts i k h => ?_⟩
  obtain ⟨-, t, hget, hmatch, hbefore⟩ := relSearchGo_eq_some parts 0 i k h
  exact ⟨t, by simpa using hget, hmatch, fun m t' hm hget' =>
    hbefore m t' (by omega) (by simpa using hget')⟩

/-- C4 witness: a line that fails the filter produces no record. -/
theorem c4_anchor_amended_witness : lineVoter ("a b c d e".toList) = none :=
  c4_anchor_amended.1 ("a b c d e".toList) (by decide)

/-! ## C8: the emitted sex values -/

def c8Line : List Char := "3 4/2 VRQ 0RWKHU GHE".toList

def c8Voter : LineVoter :=
  { slNo := "3".toList
    houseNo := "4/2".toList
    voterName := "son".toList
    voterNameEncoded := "VRQ".toList
    relationship := "Mother".toList
    relationName := "deb".toList
    relationNameEncoded := "GHE".toList
    sex := []
    age := []
    epicNo := [] }

/-- C8 counterexample: a line with no sex marker is emitted with the
empty-string sentinel in its sex field, not an Unknown variant. -/
theorem c8_sex_counterexample :
    lineVoter c8Line = some c8Voter ∧ c8Voter.sex = [] := by
  exact ⟨by decide, rfl⟩

/-- C8 amended: every emitted voter record carries sex `M`, `F` or the empty
string; an undetected sex is recorded as the empty-string sentinel, no
Unknown variant exists. -/
theorem c8_sex_amended :
    ∀ line r, lineVoter line = some r →
      r.sex = ['M'] ∨ r.sex = ['F'] ∨ r.sex = [] := by
  intro line r h
  rw [lineVoter] at h
  split_ifs at h
  all_goals first
    | exact Option.noConfusion h
    | (rw [assembleVoter_sex _ _ h]; exact sexScanGo_cases _ none)

/-- C8 witness: the amended theorem applied to a concrete emitted record. -/
theorem c8_sex_amended_witness :
    c8Voter.sex = ['M'] ∨ c8Voter.sex = ['F'] ∨ c8Voter.sex = [] :=
  c8_sex_amended c8Line c8Voter (by decide)

/-! ## C5: age extraction -/

/-- C5 counterexample: a pair of indexed-code references far outside the
digit range — both decode to the empty string, not to single digits — is
still combined from the raw code values and accepted as the age 23. -/
theorem c5_age_counterexample :
    parseAgeFromParts ["(cid:2)(cid:3)".toList] 0 = "23".toList ∧
    cidDecode 2 = [] ∧ cidDecode 3 = [] ∧
    decodeText ("(cid:2)(cid:3)".toList) = [] := by
  exact ⟨by decide, by decide, by decide, by decide⟩

theorem parseAgeGo_eq_spec (ts : List (List Char)) :
    parseAgeGo ts =
      match ((ts.flatMap ageCandidates).filter
          (fun n => decide (18 ≤ n ∧ n ≤ 120))).head? with
      | some n => digitsOfNat n
      | none => [] := by
  induction ts with
  | nil => rfl
  | cons part rest ih =>
    rw [parseAgeGo]
    cases hc : cidNumbers part with
    | nil =>
      by_cases hd : isDigits (stripCidGroups part) = true
      · by_cases hr : 18 ≤ natOfDigits (stripCidGroups part) ∧
            natOfDigits (stripCidGroups part) ≤ 120
        · simp [ageCandidates, hc, hd, hr, List.filter_cons]
        · simp [ageCandidates, hc, hd, hr, List.filter_cons, ih]
      · simp [ageCandidates, hc, hd, ih]
    | cons n1 tl =>
      cases tl with
      | nil =>
        by_cases hd : isDigits (stripCidGroups part) = true
        · by_cases hr : 18 ≤ natOfDigits (stripCidGroups part) ∧
              natOfDigits (stripCidGroups part) ≤ 120
          · simp [ageCandidates, hc, hd, hr, List.filter_cons]
          · simp [ageCandidates, hc, hd, hr, List.filter_cons, ih]
        · simp [ageCandidates, hc, hd, ih]
      | cons n2 tl2 =>
        by_cases hp : 18 ≤ cidAgeDigit n1 * 10 + cidAgeDigit n2 ∧
            cidAgeDigit n1 * 10 + cidAgeDigit n2 ≤ 120
        · simp [ageCandidates, hc, hp, List.filter_cons]
        · by_cases hd : isDigits (stripCidGroups part) = true
          · by_cases hr : 18 ≤ natOfDigits (stripCidGroups part) ∧
                natOfDigits (stripCidGroups part) ≤ 120
            · simp [ageCandidates, hc, hp, hd, hr, List.filter_cons]
            · simp [ageCandidates, hc, hp, hd, hr, List.filter_cons, ih]
          · simp [ageCandidates, hc, hp, hd, ih]

/-- C5 amended: age extraction scans tokens from the start index, preferring
the pair of indexed-code references combined as `d1*10+d2` where each digit
is the raw code value unless the code lies in [19,28] (so decoded single
digits are not required), otherwise accepting the purely numeric stripped
token; the first candidate in [18,120] wins and every out-of-range candidate
is discarded, leaving the age absent — never clamped and never an error. -/
theorem c5_age_amended :
    (∀ parts start, parseAgeFromParts parts start = ageSpec parts start) ∧
    (∀ parts start, parseAgeFromParts parts start = [] ∨
      ∃ n, 18 ≤ n ∧ n ≤ 120 ∧ parseAgeFromParts parts start = digitsOfNat n) := by
  constructor
  · intro parts start
    rw [parseAgeFromParts, ageSpec, parseAgeGo_eq_spec]
  · intro parts start
    rw [parseAgeFromParts, parseAgeGo_eq_spec]
    cases hh : (((parts.drop start).flatMap ageCandidates).filter
        (fun n => decide (18 ≤ n ∧ n ≤ 120))).head? with
    | none => exact Or.inl rfl
    | some n =>
      refine Or.inr ⟨n, ?_, ?_, rfl⟩ <;>
      · have hmem := List.mem_of_mem_head? (l := ((parts.drop start).flatMap
          ageCandidates).filter (fun n => decide (18 ≤ n ∧ n ≤ 120))) (by rw [hh]; rfl)
        have := List.of_mem_filter hmem
        simp at this
        omega

/-! ## String similarity (`difflib.SequenceMatcher(None, a, b).ratio()`) -/

/-- Occurrence indices of a character in the second sequence (the `b2j`
dictionary entry before autojunk). -/
def b2jIndices (b : List Char) (c : Char) : List Nat :=
  (List.range b.length).filter (fun j => decide (b.getD j ' ' = c))

/-- The autojunk rule: on a second sequence of length at least 200, characters
occupying more than one percent are dropped from `b2j`. -/
def popularCheck (b : List Char) (c : Char) : Bool :=
  decide (200 ≤ b.length) && decide (b.length / 100 + 1 < b.count c)

def b2j (b : List Char) (c : Char) : List Nat :=
  if popularCheck b c then [] else b2jIndices b c

/-- Inner loop of `find_longest_match` over the candidate `j` positions of one
row: `continue` below `blo`, `break` at `bhi`, otherwise extend the run ending
at `(i, j)` and keep the best. -/
def flmInner (j2len : Nat → Nat) (blo bhi i : Nat) :
    List Nat → (Nat → Nat) → Nat × Nat × Nat → (Nat → Nat) × (Nat × Nat × Nat)
  | [], acc, best => (acc, best)
  | j :: js, acc, best =>
    if j < blo then flmInner j2len blo bhi i js acc best
    else if bhi ≤ j then (acc, best)
    else
      let k := (if j = 0 then 0 else j2len (j - 1)) + 1
      let acc2 := fun j2 => if j2 = j then k else acc j2
      let best2 := if best.2.2 < k then (i + 1 - k, j + 1 - k, k) else best
      flmInner j2len blo bhi i js acc2 best2

/-- Outer loop of `find_longest_match` over the rows `i` of `[alo, ahi)`. -/
def flmRows (a b : List Char) (blo bhi : Nat) :
    Nat → Nat → (Nat → Nat) → Nat × Nat × Nat → Nat × Nat × Nat
  | 0, _, _, best => best
  | cnt + 1, i, j2len, best =>
    let step := flmInner j2len blo bhi i (b2j b (a.getD i ' ')) (fun _ => 0) best
    flmRows a b blo bhi cnt (i + 1) step.1 step.2

/-- The first post-loop of `find_longest_match`: with no junk, grow the block
downward while the adjacent characters agree. -/
def extendLower (a b : List Char) (alo blo : Nat) :
    Nat → Nat × Nat × Nat → Nat × Nat × Nat
  | 0, best => best
  | fuel + 1, (bi, bj, bs) =>
    if alo < bi ∧ blo < bj ∧ a.getD (bi - 1) '\x00' = b.getD (bj - 1) '\x01' then
      extendLower a b alo blo fuel (bi - 1, bj - 1, bs + 1)
    else (bi, bj, bs)

/-- The second post-loop: grow the block upward while characters agree. -/
def extendUpper (a b : List Char) (ahi bhi : Nat) :
    Nat → Nat × Nat × Nat → Nat × Nat × Nat
  | 0, best => best
  | fuel + 1, (bi, bj, bs) =>
    if bi + bs < ahi ∧ bj + bs < bhi ∧ a.getD (bi + bs) '\x00' = b.getD (bj + bs) '\x01' then
      extendUpper a b ahi bhi fuel (bi, bj, bs + 1)
    else (bi, bj, bs)

/-- `find_longest_match(alo, ahi, blo, bhi)` with `isjunk = None`: the junk
extension loops never fire because the junk set is empty. -/
def flm (a b : List Char) (alo ahi blo bhi : Nat) : Nat × Nat × Nat :=
  let m := flmRows a b blo bhi (ahi - alo) alo (fun _ => 0) (alo, blo, 0)
  extendUpper a b ahi bhi ahi (extendLower a b alo blo m.1 m)

/-- Total size of the matching blocks found by the recursive splitting of
`get_matching_blocks`; the queue order does not affect the sum. -/
def mblocksTotal (a b : List Char) : Nat → Nat → Nat → Nat → Nat → Nat
  | 0, _, _, _, _ => 0
  | fuel + 1, alo, ahi, blo, bhi =>
    let m := flm a b alo ahi blo bhi
    if m.2.2 = 0 then 0
    else m.2.2 +
      (if alo < m.1 ∧ blo < m.2.1 then mblocksTotal a b fuel alo m.1 blo m.2.1 else 0) +
      (if m.1 + m.2.2 < ahi ∧ m.2.1 + m.2.2 < bhi then
        mblocksTotal a b fuel (m.1 + m.2.2) ahi (m.2.1 + m.2.2) bhi else 0)

def seqMatches (a b : List Char) : Nat :=
  mblocksTotal a b (a.length + b.length + 1) 0 a.length 0 b.length

/-- `ratio()`: twice the matched total over the combined length, as an exact
rational; 1 on two empty sequences. -/
def ratioQ (a b : List Char) : ℚ :=
  if a.length + b.length = 0 then 1
  else 2 * (seqMatches a b : ℚ) / ((a.length + b.length : Nat) : ℚ)

/-! ### Bounds: the matched total never exceeds either length -/

/-- Invariant of one `j2len` row: nonzero entries sit inside `[blo, bhi)`,
are bounded by the number of rows seen, and by the distance from `blo`. -/
def JInv (blo bhi rows : Nat) (f : Nat → Nat) : Prop :=
  ∀ j, f j ≠ 0 → blo ≤ j ∧ j < bhi ∧ f j ≤ rows ∧ f j + blo ≤ j + 1

/-- Invariant of a best triple: it denotes a block inside the rectangle
`[alo, m) × [blo, bhi)`. -/
def BestB (alo blo bhi m : Nat) (best : Nat × Nat × Nat) : Prop :=
  alo ≤ best.1 ∧ blo ≤ best.2.1 ∧ best.1 + best.2.2 ≤ m ∧ best.2.1 + best.2.2 ≤ bhi

theorem flmInner_acc2 (blo bhi i alo j K : Nat) (acc : Nat → Nat)
    (hacc : JInv blo bhi (i + 1 - alo) acc) (hb1 : blo ≤ j) (hb2 : j < bhi)
    (hK1 : K ≤ i + 1 - alo) (hK2 : K + blo ≤ j + 1) :
    JInv blo bhi (i + 1 - alo) (fun j2 => if j2 = j then K else acc j2) := by
  intro j2 hne
  dsimp only at hne ⊢
  by_cases hjj : j2 = j
  · rw [if_pos hjj]
    rw [hjj]
    exact ⟨hb1, hb2, hK1, hK2⟩
  · rw [if_neg hjj] at hne ⊢
    exact hacc j2 hne

theorem flmInner_best2 (alo blo bhi i j K : Nat) (best : Nat × Nat × Nat)
    (hbest : BestB alo blo bhi (i + 1) best) (hb2 : j < bhi)
    (hK1 : K ≤ i + 1 - alo) (hK2 : K + blo ≤ j + 1) (halo : alo ≤ i) :
    BestB alo blo bhi (i + 1)
      (if best.2.2 < K then (i + 1 - K, j + 1 - K, K) else best) := by
  obtain ⟨hb1', hb2', hb3', hb4'⟩ := hbest
  split_ifs with hlt
  · refine ⟨?_, ?_, ?_, ?_⟩ <;> dsimp only <;> omega
  · exact ⟨hb1', hb2', hb3', hb4'⟩

theorem flmInner_inv (blo bhi i alo : Nat) (j2len : Nat → Nat)
    (halo : alo ≤ i) (hj : JInv blo bhi (i - alo) j2len) :
    ∀ (js : List Nat) (acc : Nat → Nat) (best : Nat × Nat × Nat),
      JInv blo bhi (i + 1 - alo) acc → BestB alo blo bhi (i + 1) best →
      JInv blo bhi (i + 1 - alo) (flmInner j2len blo bhi i js acc best).1 ∧
        BestB alo blo bhi (i + 1) (flmInner j2len blo bhi i js acc best).2 := by
  intro js
  induction js with
  | nil => intro acc best hacc hbest; exact ⟨hacc, hbest⟩
  | cons j js ih =>
    intro acc best hacc hbest
    rw [flmInner]
    by_cases h1 : j < blo
    · rw [if_pos h1]
      exact ih acc best hacc hbest
    · rw [if_neg h1]
      by_cases h2 : bhi ≤ j
      · rw [if_pos h2]
        exact ⟨hacc, hbest⟩
      · rw [if_neg h2]
        have hk1 : (if j = 0 then 0 else j2len (j - 1)) + 1 ≤ i + 1 - alo := by
          by_cases hj0 : j = 0
          · rw [if_pos hj0]; omega
          · rw [if_neg hj0]
            by_cases hz : j2len (j - 1) = 0
            · rw [hz]; omega
            · have := hj (j - 1) hz; omega
        have hk2 : (if j = 0 then 0 else j2len (j - 1)) + 1 + blo ≤ j + 1 := by
          by_cases hj0 : j = 0
          · rw [if_pos hj0]; omega
          · rw [if_neg hj0]
            by_cases hz : j2len (j - 1) = 0
            · rw [hz]; omega
            · have := hj (j - 1) hz; omega
        exact ih _ _
          (flmInner_acc2 blo bhi i alo j _ acc hacc (by omega) (by omega) hk1 hk2)
          (flmInner_best2 alo blo bhi i j _ best hbest (by omega) hk1 hk2 halo)

theorem flmRows_inv (a b : List Char) (alo blo bhi : Nat) :
    ∀ (cnt i : Nat) (j2len : Nat → Nat) (best : Nat × Nat × Nat),
      alo ≤ i → JInv blo bhi (i - alo) j2len → BestB alo blo bhi i best →
      BestB alo blo bhi (i + cnt) (flmRows a b blo bhi cnt i j2len best) := by
  intro cnt
  induction cnt with
  | zero =>
    intro i j2len best hi hj hbest
    simpa using hbest
  | succ n ih =>
    intro i j2len best hi hj hbest
    rw [flmRows]
    have hbest1 : BestB alo blo bhi (i + 1) best := by
      obtain ⟨h1, h2, h3, h4⟩ := hbest
      exact ⟨h1, h2, by omega, h4⟩
    have hacc0 : JInv blo bhi (i + 1 - alo) (fun _ => 0) := by
      intro j hne; simp at hne
    obtain ⟨hstep1, hstep2⟩ :=
      flmInner_inv blo bhi i alo j2len hi hj (b2j b (a.getD i ' ')) (fun _ => 0) best
        hacc0 hbest1
    have := ih (i + 1) _ _ (by omega) hstep1 hstep2
    have harith : i + 1 + n = i + (n + 1) := by omega
    rwa [harith] at this

theorem extendLower_inv (a b : List Char) (alo blo ahi bhi : Nat) :
    ∀ (fuel : Nat) (best : Nat × Nat × Nat),
      BestB alo blo bhi ahi best →
      BestB alo blo bhi ahi (extendLower a b alo blo fuel best) := by
  intro fuel
  induction fuel with
  | zero => intro best h; exact h
  | succ n ih =>
    rintro ⟨bi, bj, bs⟩ h
    obtain ⟨h1, h2, h3, h4⟩ := h
    dsimp only at h1 h2 h3 h4
    rw [extendLower]
    split_ifs with hcond
    · refine ih _ ⟨?_, ?_, ?_, ?_⟩ <;> dsimp only <;> omega
    · exact ⟨h1, h2, h3, h4⟩

theorem extendUpper_inv (a b : List Char) (alo ahi bhi blo : Nat) :
    ∀ (fuel : Nat) (best : Nat × Nat × Nat),
      BestB alo blo bhi ahi best →
      BestB alo blo bhi ahi (extendUpper a b ahi bhi fuel best) := by
  intro fuel
  induction fuel with
  | zero => intro best h; exact h
  | succ n ih =>
    rintro ⟨bi, bj, bs⟩ h
    obtain ⟨h1, h2, h3, h4⟩ := h
    dsimp only at h1 h2 h3 h4
    rw [extendUpper]
    split_ifs with hcond
    · refine ih _ ⟨?_, ?_, ?_, ?_⟩ <;> dsimp only <;> omega
    · exact ⟨h1, h2, h3, h4⟩

theorem flm_bounds (a b : List Char) (alo ahi blo bhi : Nat)
    (ha : alo ≤ ahi) (hb : blo ≤ bhi) :
    BestB alo blo bhi ahi (flm a b alo ahi blo bhi) := by
  rw [flm]
  apply extendUpper_inv
  apply extendLower_inv
  have := flmRows_inv a b alo blo bhi (ahi - alo) alo (fun _ => 0) (alo, blo, 0)
    (le_refl alo) (by intro j hne; simp at hne)
    (by refine ⟨?_, ?_, ?_, ?_⟩ <;> dsimp only <;> omega)
  have harith : alo + (ahi - alo) = ahi := by omega
  rwa [harith] at this

theorem mblocksTotal_le (a b : List Char) :
    ∀ (fuel alo ahi blo bhi : Nat), alo ≤ ahi → blo ≤ bhi →
      mblocksTotal a b fuel alo ahi blo bhi ≤ min (ahi - alo) (bhi - blo) := by
  intro fuel
  induction fuel with
  | zero => intro alo ahi blo bhi ha hb; simp [mblocksTotal]
  | succ n ih =>
    intro alo ahi blo bhi ha hb
    rw [mblocksTotal]
    obtain ⟨h1, h2, h3, h4⟩ := flm_bounds a b alo ahi blo bhi ha hb
    set m := flm a b alo ahi blo bhi with hm
    split_ifs with hz hA hB hB
    · simp
    · have tA := ih alo m.1 blo m.2.1 (by omega) (by omega)
      have tB := ih (m.1 + m.2.2) ahi (m.2.1 + m.2.2) bhi (by omega) (by omega)
      omega
    · have tA := ih alo m.1 blo m.2.1 (by omega) (by omega)
      omega
    · have tB := ih (m.1 + m.2.2) ahi (m.2.1 + m.2.2) bhi (by omega) (by omega)
      omega
    · omega

theorem seqMatches_le (a b : List Char) :
    seqMatches a b ≤ min a.length b.length := by
  have := mblocksTotal_le a b (a.length + b.length + 1) 0 a.length 0 b.length
    (Nat.zero_le _) (Nat.zero_le _)
  simpa using this

theorem ratioQ_bounds (a b : List Char) : 0 ≤ ratioQ a b ∧ ratioQ a b ≤ 1 := by
  rw [ratioQ]
  split_ifs with h0
  · norm_num
  · constructor
    · apply div_nonneg
      · positivity
      · positivity
    · rw [div_le_one (by positivity)]
      have hle : 2 * seqMatches a b ≤ a.length + b.length := by
        have := seqMatches_le a b
        omega
      exact_mod_cast hle

/-! ## Reconciliation engine (`DataValidator` in `validator.py`) -/

/-- `str(d.get(field, '')).strip().upper()` applied to one field value. -/
def normVal (s : String) : List Char := (pyStrip s.toList).map pyToUpper

def compareFieldsDefault : List String := ["epic_no", "name", "age"]

def matchThresholdDefault : ℚ := 95 / 100

/-- Per-field score: exact match for the age and EPIC fields, the sequence
similarity for free-text fields. -/
def fieldScore (f : String) (l a : List Char) : ℚ :=
  if f = "age" ∨ f = "epic_no" then (if l = a then 1 else 0) else ratioQ l a

/-- `_calculate_match_score`: fields empty on either side are skipped, the
rest are scored and averaged; an empty score list yields 0. -/
def calcMatchScore (fields : List String) (lv av : String → String) : ℚ :=
  let scores := fields.filterMap (fun f =>
    if normVal (lv f) = [] ∨ normVal (av f) = [] then none
    else some (fieldScore f (normVal (lv f)) (normVal (av f))))
  if scores = [] then 0 else scores.sum / (scores.length : ℚ)

/-- The compare fields that are non-empty on both sides. -/
def comparableFields (fields : List String) (lv av : String → String) : List String :=
  fields.filter (fun f => decide (normVal (lv f) ≠ [] ∧ normVal (av f) ≠ []))

structure VResult where
  valid : Bool
  matchScore : ℚ
  apiData : Option (String → String)
  error : Option String

def noEpicMsg : String := "No EPIC number to validate"

def notFoundMsg : String := "Voter not found in API"

/-- `validate_voter`: the remote lookup is injected as its outcome — a
payload, an absent payload, or a raised exception message. -/
def validateVoter (threshold : ℚ) (fields : List String) (v : String → String)
    (fetch : Except String (Option (String → String))) : VResult :=
  if v "epic_no" = "" then
    { valid := false, matchScore := 0, apiData := none, error := some noEpicMsg }
  else
    match fetch with
    | .error e => { valid := false, matchScore := 0, apiData := none, error := some e }
    | .ok none => { valid := false, matchScore := 0, apiData := none, error := some notFoundMsg }
    | .ok (some api) =>
      { valid := decide (threshold ≤ calcMatchScore fields v api)
        matchScore := calcMatchScore fields v api
        apiData := some api
        error := none }

structure BatchReport where
  totalVoters : Nat
  validated : Nat
  validCount : Nat
  invalidCount : Nat
  errorCount : Nat
  avgMatchScore : ℚ
  validationRate : ℚ

/-- `validate_batch`: sample, validate each voter, and classify each result
into exactly one of the `errors` / `valid` / `invalid` counters. -/
def validateBatch (threshold : ℚ) (fields : List String) (sampleSize : Nat)
    (fetch : (String → String) → Except String (Option (String → String)))
    (voters : List (String → String)) : BatchReport :=
  let toValidate := if sampleSize < voters.length then voters.take sampleSize else voters
  let results := toValidate.map (fun v => validateVoter threshold fields v (fetch v))
  let scores := (results.filter (fun r => r.error.isNone && r.valid)).map
    (fun r => r.matchScore)
  { totalVoters := voters.length
    validated := results.length
    validCount := (results.filter (fun r => r.error.isNone && r.valid)).length
    invalidCount := (results.filter (fun r => r.error.isNone && !r.valid)).length
    errorCount := (results.filter (fun r => r.error.isSome)).length
    avgMatchScore := if scores = [] then 0 else scores.sum / (scores.length : ℚ)
    validationRate :=
      if 0 < results.length then
        ((results.filter (fun r => r.error.isNone && r.valid)).length : ℚ) /
          (results.length : ℚ)
      else 0 }

theorem calcScores_eq (fields : List String) (lv av : String → String) :
    fields.filterMap (fun f =>
      if normVal (lv f) = [] ∨ normVal (av f) = [] then none
      else some (fieldScore f (normVal (lv f)) (normVal (av f)))) =
    (comparableFields fields lv av).map
      (fun f => fieldScore f (normVal (lv f)) (normVal (av f))) := by
  induction fields with
  | nil => rfl
  | cons f fs ih =>
    rw [List.filterMap_cons, comparableFields, List.filter_cons]
    by_cases h : normVal (lv f) = [] ∨ normVal (av f) = []
    · rw [if_pos h]
      have hd : decide (normVal (lv f) ≠ [] ∧ normVal (av f) ≠ []) = false := by
        simp only [decide_eq_false_iff_not]
        tauto
      rw [hd]
      exact ih
    · rw [if_neg h]
      have hd : decide (normVal (lv f) ≠ [] ∧ normVal (av f) ≠ []) = true := by
        simp only [decide_eq_true_eq]
        tauto
      rw [hd]
      simp only [List.map_cons]
      rw [ih]
      rfl

/-- C3. The match score is the arithmetic mean of the per-field scores over
exactly the configured compare fields that are non-empty on both sides; the
age and EPIC fields score 1 or 0 by exact match and the text fields score the
case-insensitive similarity, which always lies in [0,1]; with no comparable
field the score is 0 (totally, never an exception); and with a payload
present the outcome is valid exactly when the score reaches the configured
threshold. -/
theorem c3_match_score_mean :
    (∀ fields lv av, calcMatchScore fields lv av =
      (if comparableFields fields lv av = [] then 0
       else ((comparableFields fields lv av).map
           (fun f => fieldScore f (normVal (lv f)) (normVal (av f)))).sum /
         ((comparableFields fields lv av).length : ℚ))) ∧
    (∀ f l a, (f = "age" ∨ f = "epic_no") →
      fieldScore f l a = (if l = a then (1 : ℚ) else 0)) ∧
    (∀ f l a, ¬(f = "age" ∨ f = "epic_no") → fieldScore f l a = ratioQ l a) ∧
    (∀ l a, 0 ≤ ratioQ l a ∧ ratioQ l a ≤ 1) ∧
    (∀ (threshold : ℚ) fields v api, v "epic_no" ≠ "" →
      ((validateVoter threshold fields v (.ok (some api))).valid = true ↔
        threshold ≤ calcMatchScore fields v api)) := by
  refine ⟨fun fields lv av => ?_, fun f l a h => by rw [fieldScore, if_pos h],
    fun f l a h => by rw [fieldScore, if_neg h], ratioQ_bounds,
    fun threshold fields v api h => ?_⟩
  · by_cases hc : comparableFields fields lv av = []
    · simp [calcMatchScore, calcScores_eq, hc]
    · simp [calcMatchScore, calcScores_eq, hc]
  · rw [validateVoter, if_neg h]
    simp

def c3LocalVoter : String → String := fun f =>
  if f = "epic_no" then "WB123" else if f = "name" then "RAM" else ""

def c3ApiVoter : String → String := fun f =>
  if f = "epic_no" then "WB123" else if f = "name" then "RAN" else ""

/-- C3 witness: the outcome criterion at a concrete voter and payload. -/
theorem c3_match_score_mean_witness :
    c3LocalVoter "epic_no" ≠ "" ∧
    ((validateVoter matchThresholdDefault compareFieldsDefault c3LocalVoter
        (.ok (some c3ApiVoter))).valid = true ↔
      matchThresholdDefault ≤ calcMatchScore compareFieldsDefault c3LocalVoter c3ApiVoter) :=
  ⟨by decide, c3_match_score_mean.2.2.2.2 matchThresholdDefault compareFieldsDefault
    c3LocalVoter c3ApiVoter (by decide)⟩

/-! ## C7: absent payloads, raised lookups, and the batch statistics -/

def c7VoterA : String → String := fun f => if f = "epic_no" then "E1" else ""

def c7VoterB : String → String := fun f => if f = "epic_no" then "E2" else ""

def c7Fetch : (String → String) → Except String (Option (String → String)) :=
  fun v => if v "epic_no" = "E2" then .error "connection timeout" else .ok none

/-- C7 counterexample: an absent payload and a raised lookup produce results
with distinct error messages, but the batch statistics count both in the one
`errors` counter — two batches differing only in the failure kind report the
identical (errors, valid, invalid) statistics, so the statistics carry no
distinct NotFound and Error categories; both results also still carry the
initialized match score 0.0. -/
theorem c7_outcomes_counterexample :
    (validateVoter matchThresholdDefault compareFieldsDefault c7VoterA
        (.ok none)).error = some notFoundMsg ∧
    (validateVoter matchThresholdDefault compareFieldsDefault c7VoterB
        (.error "connection timeout")).error = some "connection timeout" ∧
    (validateVoter matchThresholdDefault compareFieldsDefault c7VoterA
        (.ok none)).matchScore = 0 ∧
    (validateVoter matchThresholdDefault compareFieldsDefault c7VoterB
        (.error "connection timeout")).matchScore = 0 ∧
    (validateBatch matchThresholdDefault compareFieldsDefault 100 c7Fetch
        [c7VoterA]).errorCount = 1 ∧
    (validateBatch matchThresholdDefault compareFieldsDefault 100 c7Fetch
        [c7VoterA]).validCount = 0 ∧
    (validateBatch matchThresholdDefault compareFieldsDefault 100 c7Fetch
        [c7VoterA]).invalidCount = 0 ∧
    (validateBatch matchThresholdDefault compareFieldsDefault 100 c7Fetch
        [c7VoterB]).errorCount = 1 ∧
    (validateBatch matchThresholdDefault compareFieldsDefault 100 c7Fetch
        [c7VoterB]).validCount = 0 ∧
    (validateBatch matchThresholdDefault compareFieldsDefault 100 c7Fetch
        [c7VoterB]).invalidCount = 0 :=
  ⟨rfl, rfl, rfl, rfl, rfl, rfl, rfl, rfl, rfl, rfl⟩

/-- C7 amended: an absent payload sets the error message "Voter not found in
API" and a raised lookup sets the exception message; both leave the outcome
invalid with the initialized match score 0.0 still attached; and batch
aggregation counts either failure in the single `errors` counter of its
statistics, with no distinct NotFound and Error categories. -/
theorem c7_outcomes_amended :
    ∀ (threshold : ℚ) (fields : List String) (v : String → String) (e : String),
      v "epic_no" ≠ "" →
      ((validateVoter threshold fields v (.ok none)).error = some notFoundMsg ∧
        (validateVoter threshold fields v (.ok none)).valid = false ∧
        (validateVoter threshold fields v (.ok none)).matchScore = 0) ∧
      ((validateVoter threshold fields v (.error e)).error = some e ∧
        (validateVoter threshold fields v (.error e)).valid = false ∧
        (validateVoter threshold fields v (.error e)).matchScore = 0) ∧
      (∀ (sampleSize : Nat)
          (fetch : (String → String) → Except String (Option (String → String))),
        1 ≤ sampleSize → (fetch v = .ok none ∨ fetch v = .error e) →
        (validateBatch threshold fields sampleSize fetch [v]).errorCount = 1 ∧
        (validateBatch threshold fields sampleSize fetch [v]).validCount = 0 ∧
        (validateBatch threshold fields sampleSize fetch [v]).invalidCount = 0) := by
  intro threshold fields v e h
  have hnf : validateVoter threshold fields v (.ok none) =
      { valid := false, matchScore := 0, apiData := none, error := some notFoundMsg } := by
    rw [validateVoter, if_neg h]
  have herr : validateVoter threshold fields v (.error e) =
      { valid := false, matchScore := 0, apiData := none, error := some e } := by
    rw [validateVoter, if_neg h]
  refine ⟨⟨by rw [hnf], by rw [hnf], by rw [hnf]⟩,
    ⟨by rw [herr], by rw [herr], by rw [herr]⟩, ?_⟩
  intro sampleSize fetch hs hf
  have hs1 : ¬ (sampleSize < 1) := by omega
  rcases hf with hf | hf
  · refine ⟨?_, ?_, ?_⟩ <;> simp [validateBatch, hs1, hf, hnf]
  · refine ⟨?_, ?_, ?_⟩ <;> simp [validateBatch, hs1, hf, herr]

/-- C7 witness: the amended theorem applied to concrete failing lookups. -/
theorem c7_outcomes_amended_witness :
    (validateBatch matchThresholdDefault compareFieldsDefault 100 c7Fetch
        [c7VoterA]).errorCount = 1 ∧
    (validateBatch matchThresholdDefault compareFieldsDefault 100 c7Fetch
        [c7VoterB]).errorCount = 1 :=
  ⟨((c7_outcomes_amended matchThresholdDefault compareFieldsDefault c7VoterA
      "connection timeout" (by decide)).2.2 100 c7Fetch (by omega) (Or.inl rfl)).1,
   ((c7_outcomes_amended matchThresholdDefault compareFieldsDefault c7VoterB
      "connection timeout" (by decide)).2.2 100 c7Fetch (by omega) (Or.inr rfl)).1⟩

/-! ## EPIC formatting (`utils.format_epic_number` and
`VoterParser.format_epic_number`) -/

/-- The module-level `format_epic_number` in `utils.py`: uppercase, drop the
slashes then the spaces, drop one leading `WB`, and regroup. -/
def formatEpicNumber (epic : List Char) : List Char :=
  let e1 := pyReplaceAll (pyReplaceAll (epic.map pyToUpper) ['/'] []) [' '] []
  let e2 := if e1.take 2 = ['W', 'B'] then e1.drop 2 else e1
  if 11 ≤ e2.length then
    "WB/".toList ++ e2.take 2 ++ ['/'] ++ (e2.drop 2).take 3 ++ ['/'] ++ e2.drop 5
  else "WB/".toList ++ e2

/-- `VoterParser.format_epic_number` in `parser.py`: an empty input returns
the empty string, and the spaces are dropped before the slashes. -/
def parserFormatEpic (epic : List Char) : List Char :=
  if epic = [] then []
  else
    let e1 := pyReplaceAll (pyReplaceAll (epic.map pyToUpper) [' '] []) ['/'] []
    let e2 := if e1.take 2 = ['W', 'B'] then e1.drop 2 else e1
    if 11 ≤ e2.length then
      "WB/".toList ++ e2.take 2 ++ ['/'] ++ (e2.drop 2).take 3 ++ ['/'] ++ e2.drop 5
    else "WB/".toList ++ e2

/-- EPIC normalization as the spec words it: uppercase, strip all slash and
space characters and one leading `WB`, then regroup 2-3-rest at length at
least 11 or emit the remainder verbatim. -/
def epicNormSpec (epic : List Char) : List Char :=
  let r := (epic.map pyToUpper).filter (fun c => decide (c ≠ '/' ∧ c ≠ ' '))
  let r2 := if r.take 2 = ['W', 'B'] then r.drop 2 else r
  if 11 ≤ r2.length then
    "WB/".toList ++ r2.take 2 ++ ['/'] ++ (r2.drop 2).take 3 ++ ['/'] ++ r2.drop 5
  else "WB/".toList ++ r2

theorem pyReplaceLoop_single (c : Char) :
    ∀ (n : Nat) (s : List Char), s.length ≤ n →
      pyReplaceLoop [c] [] n s = s.filter (fun x => decide (x ≠ c)) := by
  intro n
  induction n with
  | zero =>
    intro s hs
    have : s = [] := List.length_eq_zero.mp (by omega)
    subst this
    rfl
  | succ n ih =>
    intro s hs
    match s with
    | [] => rfl
    | ch :: rest =>
      rw [pyReplaceLoop]
      have hlen : rest.length ≤ n := by
        simp only [List.length_cons] at hs
        omega
      by_cases h : ch = c
      · have hcond : (([c] : List Char) ≠ [] ∧
            (ch :: rest).take ([c] : List Char).length = [c]) := by simp [h]
        rw [if_pos hcond, List.nil_append]
        have hdrop : (ch :: rest).drop ([c] : List Char).length = rest := by simp
        rw [hdrop, ih rest hlen]
        have hdec : (decide (ch ≠ c)) = false := by simp [h]
        simp [List.filter_cons, hdec, h]
      · have hcond : ¬(([c] : List Char) ≠ [] ∧
            (ch :: rest).take ([c] : List Char).length = [c]) := by simp [h]
        rw [if_neg hcond, ih rest hlen]
        have hdec : (decide (ch ≠ c)) = true := by simp [h]
        simp [List.filter_cons, hdec, h]

theorem pyReplaceAll_single (s : List Char) (c : Char) :
    pyReplaceAll s [c] [] = s.filter (fun x => decide (x ≠ c)) :=
  pyReplaceLoop_single c s.length s (le_refl _)

theorem doubleStripSlashSpace (l : List Char) :
    pyReplaceAll (pyReplaceAll l ['/'] []) [' '] [] =
      l.filter (fun c => decide (c ≠ '/' ∧ c ≠ ' ')) := by
  rw [pyReplaceAll_single, pyReplaceAll_single, List.filter_filter]
  apply List.filter_congr
  intro c _
  by_cases h1 : c = '/' <;> by_cases h2 : c = ' ' <;> simp [h1, h2]

theorem doubleStripSpaceSlash (l : List Char) :
    pyReplaceAll (pyReplaceAll l [' '] []) ['/'] [] =
      l.filter (fun c => decide (c ≠ '/' ∧ c ≠ ' ')) := by
  rw [pyReplaceAll_single, pyReplaceAll_single, List.filter_filter]
  apply List.filter_congr
  intro c _
  by_cases h1 : c = '/' <;> by_cases h2 : c = ' ' <;> simp [h1, h2]

/-- C6. EPIC normalization uppercases, strips every slash and space and one
leading `WB`, regroups a remainder of length at least 11 as
`WB/<2>/<3>/<rest>` and emits `WB/<remainder>` verbatim otherwise; in
particular the quoted fifteen-character example. -/
theorem c6_epic_normalization :
    (∀ epic, formatEpicNumber epic = epicNormSpec epic) ∧
    formatEpicNumber ("WB1234567890123".toList) = "WB/12/345/67890123".toList ∧
    formatEpicNumber ("wb 12/34".toList) = "WB/1234".toList := by
  refine ⟨fun epic => ?_, by decide, by decide⟩
  simp only [formatEpicNumber, epicNormSpec, doubleStripSlashSpace]

/-- C10. The utils-module formatter and the parser-method formatter agree on
every non-empty input; on the empty string the parser method returns the
empty string while the utils function returns `WB/`. -/
theorem c10_formatters_agree :
    (∀ epic, epic ≠ [] → parserFormatEpic epic = formatEpicNumber epic) ∧
    parserFormatEpic [] = [] ∧
    formatEpicNumber [] = "WB/".toList := by
  refine ⟨fun epic h => ?_, rfl, by decide⟩
  rw [parserFormatEpic, if_neg h]
  simp only [formatEpicNumber, doubleStripSlashSpace, doubleStripSpaceSlash]

/-- C10 witness: agreement at a concrete non-empty input. -/
theorem c10_formatters_agree_witness :
    parserFormatEpic ("wb1234".toList) = formatEpicNumber ("wb1234".toList) :=
  c10_formatters_agree.1 ("wb1234".toList) (by decide)

/-! ## Voters-table insert (`Database.insert_voter` in `storage.py`) -/

structure VoterData where
  epicNumber : List Char
  acNumber : Int
  partNumber : Int
  serialNumber : Int
  name : List Char
  age : Int
  gender : List Char
  relationType : List Char
  relationName : List Char
  address : List Char
deriving DecidableEq, Repr

structure VoterRow where
  id : Nat
  data : VoterData
deriving DecidableEq, Repr

structure VoterTable where
  rows : List VoterRow
  nextId : Nat
deriving DecidableEq, Repr

/-- The uniqueness key of the voters table:
`UNIQUE(epic_number, ac_number, part_number, serial_number)`. -/
def voterKey (v : VoterData) : List Char × Int × Int × Int :=
  (v.epicNumber, v.acNumber, v.partNumber, v.serialNumber)

/-- `insert_voter`: the integrity error of a duplicate key is caught and
turned into `None` with the table untouched; otherwise the row is appended
and its fresh rowid returned. -/
def insertVoter (db : VoterTable) (v : VoterData) : Option Nat × VoterTable :=
  if db.rows.any (fun r => decide (voterKey r.data = voterKey v)) then (none, db)
  else
    (some db.nextId,
      { rows := db.rows ++ [{ id := db.nextId, data := v }], nextId := db.nextId + 1 })

/-- C9. Inserting a voter whose uniqueness key already exists returns `None`
instead of raising and leaves the stored rows unchanged; in particular
re-ingesting the same record right after any insert is a silent no-op. -/
theorem c9_duplicate_insert :
    (∀ db v, (∃ r ∈ db.rows, voterKey r.data = voterKey v) →
      insertVoter db v = (none, db)) ∧
    (∀ db v,
      (insertVoter (insertVoter db v).2 v).1 = none ∧
      (insertVoter (insertVoter db v).2 v).2 = (insertVoter db v).2) := by
  have hdup : ∀ db v, (∃ r ∈ db.rows, voterKey r.data = voterKey v) →
      insertVoter db v = (none, db) := by
    intro db v h
    obtain ⟨r, hr, hk⟩ := h
    rw [insertVoter, if_pos]
    rw [List.any_eq_true]
    exact ⟨r, hr, by simp [hk]⟩
  refine ⟨hdup, fun db v => ?_⟩
  by_cases h : db.rows.any (fun r => decide (voterKey r.data = voterKey v)) = true
  · have h1 : insertVoter db v = (none, db) := by rw [insertVoter, if_pos h]
    refine ⟨?_, ?_⟩ <;> simp [h1]
  · have h1 : insertVoter db v =
        (some db.nextId,
          { rows := db.rows ++ [{ id := db.nextId, data := v }],
            nextId := db.nextId + 1 }) := by
      rw [insertVoter, if_neg h]
    have h2 := hdup
      { rows := db.rows ++ [{ id := db.nextId, data := v }], nextId := db.nextId + 1 } v
      ⟨{ id := db.nextId, data := v }, by simp, rfl⟩
    refine ⟨?_, ?_⟩ <;> simp [h1, h2]

def c9Data : VoterData :=
  { epicNumber := "WB1".toList
    acNumber := 1
    partNumber := 2
    serialNumber := 3
    name := "X".toList
    age := 30
    gender := "M".toList
    relationType := "Father".toList
    relationName := "Y".toList
    address := "Z".toList }

def c9Db : VoterTable := { rows := [{ id := 1, data := c9Data }], nextId := 2 }

/-- C9 witness: a concrete duplicate-key insert is a silent no-op. -/
theorem c9_duplicate_insert_witness : insertVoter c9Db c9Data = (none, c9Db) :=
  c9_duplicate_insert.1 c9Db c9Data
    ⟨{ id := 1, data := c9Data }, by decide, by decide⟩

end WB
